import Mathlib

/-!
A shallow embedding of the retrieval pipeline of the RAG-Repository-Analyzer
repository (src/github_parser.py, src/rag_service.py, src/embedding.py,
src/chromaDB_setup.py, src/file_selector.py), together with theorems settling
the behavioural claims about it.

Python strings are modelled as Lean `String`s, and the Python string
operations used by the source (`in`, `endswith`, `startswith`, `lower`,
`strip`) are re-implemented over the underlying character lists so that every
definition is executable and kernel-reducible.  Machine floats are modelled
as exact rationals (the constants the source manipulates — 0.5, 1.0, 1.5,
2.0, 3.0 — are all exactly representable), and real-valued facts (L2 norms)
are stated over `ℝ`.  External collaborators (the tiktoken encoder, the
LangChain splitters, the mmh3 hash) are passed in as explicit function
parameters, exactly where the source calls out to them.
-/

/-- Python `needle in hay` on character lists: `needle` occurs contiguously in
`hay` (the empty needle always occurs). -/
def hasSubstr (hay needle : List Char) : Bool :=
  match hay with
  | [] => needle.isEmpty
  | _ :: t => needle.isPrefixOf hay || hasSubstr t needle

/-- Python `needle in hay` for strings (substring containment). -/
def strIn (needle hay : String) : Bool :=
  hasSubstr hay.data needle.data

/-- Python `s.endswith(suf)`. -/
def strEndsWith (s suf : String) : Bool :=
  suf.data.isSuffixOf s.data

/-- Python `s.startswith(pre)`. -/
def strStartsWith (s pre : String) : Bool :=
  pre.data.isPrefixOf s.data

/-- Python `s.lower()` (ASCII case folding, which covers every character the
source compares against). -/
def pyLower (s : String) : String :=
  String.mk (s.data.map Char.toLower)

/-- Python `s.strip()`: drop leading and trailing whitespace. -/
def pyStrip (s : String) : String :=
  String.mk (((s.data.dropWhile Char.isWhitespace).reverse.dropWhile Char.isWhitespace).reverse)

/-- `RepoFile`: one fetched repository file, as produced by
`get_repo_files` in `src/github_parser.py` (a dict with keys
`file_name` and `content`). -/
structure RepoFile where
  file_name : String
  content : String
deriving DecidableEq

/-- The textual-extension allowlist used by `analyze_repository_volume`
(`src/github_parser.py`, line 185). -/
def volume_textual_extensions : List String :=
  [".md", ".txt", ".xml", ".rst", ".adoc"]

/-- The code-extension allowlist used by `analyze_repository_volume`
(`src/github_parser.py`, lines 187-189).  Note it does not list `.sql`,
unlike the chunking allowlist below. -/
def volume_code_extensions : List String :=
  [".py", ".js", ".java", ".html", ".css", ".ts", ".tsx",
   ".cpp", ".c", ".h", ".hpp", ".go", ".rs", ".rb", ".php",
   ".swift", ".kt", ".scala", ".sh", ".bash", ".zsh"]

/-- `VolumeInfo`: the dictionary returned by `analyze_repository_volume`. -/
structure VolumeInfo where
  total_files : Nat
  textual_files : Nat
  code_files : Nat
  estimated_tokens : Nat
  volume_category : String
  text_chunk_size : Nat
  code_chunk_size : Nat
deriving DecidableEq

/-- `analyze_repository_volume` (`src/github_parser.py`, lines 159-220).
`encode` stands for the external tiktoken `ENCODING.encode`; it only feeds
the `estimated_tokens` field.  File counting follows the source's
`if / elif` chain: a file matching a textual extension is never counted as
code. -/
def analyze_repository_volume (encode : String → List Nat) (repo_files : List RepoFile) :
    VolumeInfo :=
  let total_files := repo_files.length
  let textual_files :=
    (repo_files.filter (fun f => volume_textual_extensions.any (fun e => strEndsWith f.file_name e))).length
  let code_files :=
    (repo_files.filter (fun f =>
      !volume_textual_extensions.any (fun e => strEndsWith f.file_name e) &&
      volume_code_extensions.any (fun e => strEndsWith f.file_name e))).length
  let total_tokens := (repo_files.map (fun f => (encode f.content).length)).sum
  let sizing : String × Nat × Nat :=
    if total_files < 100 then ("small", 1000, 800)
    else if total_files < 500 then ("medium", 750, 500)
    else ("large", 500, 300)
  { total_files := total_files
    textual_files := textual_files
    code_files := code_files
    estimated_tokens := total_tokens
    volume_category := sizing.1
    text_chunk_size := sizing.2.1
    code_chunk_size := sizing.2.2 }

/-- The code-cue keyword list of `RAGService._classify_query`
(`src/rag_service.py`, lines 373-376). -/
def code_keywords : List String :=
  ["function", "class", "method", "variable", "error", "stack trace", "traceback",
   "api", "endpoint", "def ", "return ", "for (", "if (", "compile", "build", "test", "unit test"]

/-- The text-cue keyword list of `RAGService._classify_query`
(`src/rag_service.py`, lines 377-379). -/
def text_keywords : List String :=
  ["readme", "documentation", "docs", "license", "contributing", "overview", "about", "install"]

/-- `RAGService._classify_query` (`src/rag_service.py`, lines 367-386).
Returns the route together with the weights dictionary (modelled as an
association list of exact rationals; 0.5 and 1.0 are float-exact). -/
def _classify_query (query : String) : String × List (String × ℚ) :=
  let q := pyLower query
  let code_hits := code_keywords.any (fun k => strIn k q)
  let text_hits := text_keywords.any (fun k => strIn k q)
  if code_hits && !text_hits then ("code", [("code", 1)])
  else if text_hits && !code_hits then ("text", [("text", 1)])
  else ("both", [("text", 1/2), ("code", 1/2)])

/-- C4: `analyze_repository_volume` classifies purely by file count with
thresholds 100 and 500: fewer than 100 files is "small" (1000/800), from 100
up to 499 is "medium" (750/500), and 500 or more is "large" (500/300); the
reported `total_files` is the length of the input list, for any tokenizer. -/
theorem volume_category_thresholds (encode : String → List Nat) (repo_files : List RepoFile) :
    (analyze_repository_volume encode repo_files).total_files = repo_files.length
    ∧ (repo_files.length < 100 →
        (analyze_repository_volume encode repo_files).volume_category = "small"
        ∧ (analyze_repository_volume encode repo_files).text_chunk_size = 1000
        ∧ (analyze_repository_volume encode repo_files).code_chunk_size = 800)
    ∧ (100 ≤ repo_files.length → repo_files.length < 500 →
        (analyze_repository_volume encode repo_files).volume_category = "medium"
        ∧ (analyze_repository_volume encode repo_files).text_chunk_size = 750
        ∧ (analyze_repository_volume encode repo_files).code_chunk_size = 500)
    ∧ (500 ≤ repo_files.length →
        (analyze_repository_volume encode repo_files).volume_category = "large"
        ∧ (analyze_repository_volume encode repo_files).text_chunk_size = 500
        ∧ (analyze_repository_volume encode repo_files).code_chunk_size = 300) := by
  refine ⟨rfl, ?_, ?_, ?_⟩
  · intro h
    dsimp only [analyze_repository_volume]
    rw [if_pos h]
    exact ⟨rfl, rfl, rfl⟩
  · intro h1 h2
    dsimp only [analyze_repository_volume]
    rw [if_neg (by omega : ¬ repo_files.length < 100), if_pos h2]
    exact ⟨rfl, rfl, rfl⟩
  · intro h
    dsimp only [analyze_repository_volume]
    rw [if_neg (by omega : ¬ repo_files.length < 100),
      if_neg (by omega : ¬ repo_files.length < 500)]
    exact ⟨rfl, rfl, rfl⟩

/-- Witness for `volume_category_thresholds`: a repository of exactly 100
files lands in the "medium" category. -/
theorem volume_category_thresholds_witness :
    (100 ≤ (List.replicate 100 (RepoFile.mk "a.py" "x")).length
      ∧ (List.replicate 100 (RepoFile.mk "a.py" "x")).length < 500)
    ∧ ((analyze_repository_volume (fun _ => []) (List.replicate 100 (RepoFile.mk "a.py" "x"))).volume_category = "medium"
        ∧ (analyze_repository_volume (fun _ => []) (List.replicate 100 (RepoFile.mk "a.py" "x"))).text_chunk_size = 750
        ∧ (analyze_repository_volume (fun _ => []) (List.replicate 100 (RepoFile.mk "a.py" "x"))).code_chunk_size = 500) :=
  ⟨⟨by simp, by simp⟩,
    (volume_category_thresholds (fun _ => []) (List.replicate 100 (RepoFile.mk "a.py" "x"))).2.2.1
      (by simp) (by simp)⟩

/-- C5: the query router returns route "code" with weight 1.0 when some
code-cue keyword and no text-cue keyword occurs in the lowercased question,
route "text" with weight 1.0 in the symmetric case, and route "both" with
weights 0.5/0.5 when neither or both cue sets match. -/
theorem classify_query_routing (query : String) :
    ((∃ k ∈ code_keywords, strIn k (pyLower query) = true) →
      (∀ k ∈ text_keywords, strIn k (pyLower query) = false) →
      _classify_query query = ("code", [("code", 1)]))
    ∧ ((∃ k ∈ text_keywords, strIn k (pyLower query) = true) →
      (∀ k ∈ code_keywords, strIn k (pyLower query) = false) →
      _classify_query query = ("text", [("text", 1)]))
    ∧ ((((∀ k ∈ code_keywords, strIn k (pyLower query) = false) ∧
          (∀ k ∈ text_keywords, strIn k (pyLower query) = false)) ∨
        ((∃ k ∈ code_keywords, strIn k (pyLower query) = true) ∧
          (∃ k ∈ text_keywords, strIn k (pyLower query) = true))) →
      _classify_query query = ("both", [("text", 1/2), ("code", 1/2)])) := by
  unfold _classify_query
  refine ⟨?_, ?_, ?_⟩
  · intro hc ht
    have hc' : code_keywords.any (fun k => strIn k (pyLower query)) = true := by
      rw [List.any_eq_true]; obtain ⟨k, hk, hs⟩ := hc; exact ⟨k, hk, hs⟩
    have ht' : text_keywords.any (fun k => strIn k (pyLower query)) = false := by
      rw [List.any_eq_false]; intro k hk; simp [ht k hk]
    simp [hc', ht']
  · intro ht hc
    have ht' : text_keywords.any (fun k => strIn k (pyLower query)) = true := by
      rw [List.any_eq_true]; obtain ⟨k, hk, hs⟩ := ht; exact ⟨k, hk, hs⟩
    have hc' : code_keywords.any (fun k => strIn k (pyLower query)) = false := by
      rw [List.any_eq_false]; intro k hk; simp [hc k hk]
    simp [hc', ht']
  · rintro (⟨hc, ht⟩ | ⟨hc, ht⟩)
    · have hc' : code_keywords.any (fun k => strIn k (pyLower query)) = false := by
        rw [List.any_eq_false]; intro k hk; simp [hc k hk]
      have ht' : text_keywords.any (fun k => strIn k (pyLower query)) = false := by
        rw [List.any_eq_false]; intro k hk; simp [ht k hk]
      simp [hc', ht']
    · have hc' : code_keywords.any (fun k => strIn k (pyLower query)) = true := by
        rw [List.any_eq_true]; obtain ⟨k, hk, hs⟩ := hc; exact ⟨k, hk, hs⟩
      have ht' : text_keywords.any (fun k => strIn k (pyLower query)) = true := by
        rw [List.any_eq_true]; obtain ⟨k, hk, hs⟩ := ht; exact ⟨k, hk, hs⟩
      simp [hc', ht']

/-- Witness for `classify_query_routing`: a question containing only the
code cue "function" routes to "code" with weight 1.0. -/
theorem classify_query_routing_witness :
    ((∃ k ∈ code_keywords, strIn k (pyLower "What does the hello function do") = true) ∧
      (∀ k ∈ text_keywords, strIn k (pyLower "What does the hello function do") = false)) ∧
    _classify_query "What does the hello function do" = ("code", [("code", 1)]) :=
  ⟨⟨by decide, by decide⟩,
    (classify_query_routing "What does the hello function do").1 (by decide) (by decide)⟩

/-- The mutable fields of `RAGService` (`src/rag_service.py`, lines 29-39)
that the analyze/query lifecycle reads and writes.  `α` abstracts the
collections dictionary held after a successful full-pipeline analysis. -/
structure RAGState (α : Type) where
  current_repository : Option String
  collections : Option α
  is_ready : Bool

/-- The success dictionary returned by `RAGService.analyze_repository`
(`src/rag_service.py`, lines 166-170). -/
structure AnalyzeResult where
  status : String
  message : String
  repository : String
deriving DecidableEq

/-- `RAGService.analyze_repository` (`src/rag_service.py`, lines 65-175),
legacy full-indexing path.  `pipeline` abstracts the fetch → chunk → embed →
persist sequence (steps 1-4, which call out to the executor and to external
collaborators); it returns the collections on success and the propagated
exception message on failure.  The source first raises for repository paths
containing "nonexistent" (before resetting state), then resets
`is_ready`/`collections`, runs the pipeline, and marks the service ready
only after the whole pipeline succeeded; the `except` handler forces
`is_ready = False` and re-raises. -/
def analyze_repository {α : Type} (pipeline : String → Except String α)
    (s : RAGState α) (repo_path : String) : RAGState α × Except String AnalyzeResult :=
  if strIn "nonexistent" (pyLower repo_path) then
    ({ s with is_ready := false },
      .error ("Repository '" ++ repo_path ++ "' not found or inaccessible"))
  else
    match pipeline repo_path with
    | .error e => ({ s with collections := none, is_ready := false }, .error e)
    | .ok cols =>
        ({ current_repository := some repo_path, collections := some cols, is_ready := true },
          .ok { status := "success"
                message := "Repository " ++ repo_path ++ " analyzed successfully"
                repository := repo_path })

/-- `RAGService.query_repository` (`src/rag_service.py`, lines 208-247).
`retrieve` abstracts the ready-path body (retrieval, prompt construction,
model call, source formatting — steps that can themselves fail and
re-raise).  The precondition check happens first: a not-ready service
raises `ValueError` before any other work. -/
def query_repository {α β : Type} (retrieve : String → Nat → Except String β)
    (s : RAGState α) (question : String) (top_k : Nat) : Except String β :=
  if !s.is_ready then
    .error "No repository has been analyzed yet. Please analyze a repository first."
  else
    retrieve question top_k

/-- C2: for every question and every `top_k`, querying while `is_ready` is
false fails with the precondition error message and never returns an `ok`
result, whatever the ready-path behaviour would have been. -/
theorem query_before_analyze_fails {α β : Type} (retrieve : String → Nat → Except String β)
    (s : RAGState α) (question : String) (top_k : Nat) (h : s.is_ready = false) :
    query_repository retrieve s question top_k =
      .error "No repository has been analyzed yet. Please analyze a repository first."
    ∧ ∀ r : β, query_repository retrieve s question top_k ≠ .ok r := by
  unfold query_repository
  rw [h]
  exact ⟨rfl, fun r => by simp⟩

/-- Witness for `query_before_analyze_fails`: a fresh, never-analyzed
service state rejects a concrete query. -/
theorem query_before_analyze_fails_witness :
    (RAGState.is_ready (α := Unit) ⟨none, none, false⟩ = false)
    ∧ (query_repository (β := Nat) (fun _ _ => .ok 0) (⟨none, none, false⟩ : RAGState Unit) "what is this" 3 =
        .error "No repository has been analyzed yet. Please analyze a repository first."
      ∧ ∀ r : Nat, query_repository (fun _ _ => .ok 0) (⟨none, none, false⟩ : RAGState Unit) "what is this" 3 ≠ .ok r) :=
  ⟨rfl, query_before_analyze_fails (fun _ _ => .ok 0) ⟨none, none, false⟩ "what is this" 3 rfl⟩

/-- C6: if any pipeline step fails, `analyze_repository` leaves
`is_ready = false` and propagates the error (whatever the prior state was);
and `analyze_repository "nonexistent/repo"` fails with the validation error
message and leaves `is_ready = false`. -/
theorem analyze_failure_not_ready {α : Type} (pipeline : String → Except String α)
    (s : RAGState α) (repo_path : String) (e : String)
    (h : pipeline repo_path = .error e) :
    ((analyze_repository pipeline s repo_path).1.is_ready = false
      ∧ ∃ msg, (analyze_repository pipeline s repo_path).2 = .error msg)
    ∧ ((analyze_repository pipeline s "nonexistent/repo").1.is_ready = false
      ∧ (analyze_repository pipeline s "nonexistent/repo").2 =
          .error "Repository 'nonexistent/repo' not found or inaccessible") := by
  constructor
  · unfold analyze_repository
    by_cases hne : strIn "nonexistent" (pyLower repo_path) = true
    · rw [if_pos hne]
      exact ⟨rfl, _, rfl⟩
    · rw [if_neg hne, h]
      exact ⟨rfl, e, rfl⟩
  · have hx : strIn "nonexistent" (pyLower "nonexistent/repo") = true := by decide
    unfold analyze_repository
    rw [if_pos hx]
    exact ⟨rfl, rfl⟩

/-- Witness for `analyze_failure_not_ready`: a pipeline that fails on a
concrete repository leaves the service not ready with the error propagated. -/
theorem analyze_failure_not_ready_witness :
    ((fun _ : String => (.error "ChromaDB write failed" : Except String Unit)) "user/repo" =
      .error "ChromaDB write failed")
    ∧ ((analyze_repository (fun _ => .error "ChromaDB write failed")
          (⟨some "old/repo", some (), true⟩ : RAGState Unit) "user/repo").1.is_ready = false
      ∧ ∃ msg, (analyze_repository (fun _ => .error "ChromaDB write failed")
          (⟨some "old/repo", some (), true⟩ : RAGState Unit) "user/repo").2 = .error msg) :=
  ⟨rfl,
    (analyze_failure_not_ready (fun _ => .error "ChromaDB write failed")
      ⟨some "old/repo", some (), true⟩ "user/repo" "ChromaDB write failed" rfl).1⟩

/-- Python `text.encode("utf-8")` as a list of byte values: each character's
UTF-8 encoding, concatenated (this is exactly how `String.toUTF8` is built). -/
def strBytes (s : String) : List Nat :=
  s.data.flatMap (fun c => (String.utf8EncodeChar c).map (fun b => b.toNat))

/-- The sliding-window hashing loop of `_fallback_embed`
(`src/embedding.py`, lines 63-67): for each byte `b`,
`h = (h * 131 + b) & 0xFFFFFFFF` and bucket `h % dim` is incremented.
The float32 accumulator is exact on these integer counts, so the vector is
modelled as natural-number bucket counts. -/
def fbLoop (dim : Nat) : Nat → List Nat → List Nat → List Nat
  | _, vec, [] => vec
  | h, vec, b :: bs =>
      let h2 := (h * 131 + b) % 4294967296
      fbLoop dim h2 (vec.set (h2 % dim) (vec.getD (h2 % dim) 0 + 1)) bs

/-- The pre-normalization bucket-count vector of `_fallback_embed`
(`src/embedding.py`, lines 51-67): a zero vector of length `dim`, the
hashing loop run over the input bytes.  The source then L2-normalizes this
vector when its norm is positive and returns it unchanged (all zeros) when
the input was empty. -/
def _fallback_embed_counts (text : String) (dim : Nat) : List Nat :=
  if text = "" then List.replicate dim 0
  else fbLoop dim 0 (List.replicate dim 0) (strBytes text)

/-- The default dimension of the textual fallback (`src/embedding.py`,
line 51: `dim: int = 384`). -/
def textual_fallback_dim : Nat := 384

/-- The dimension `generate_code_embedding` passes to the fallback
(`src/embedding.py`, line 116: `_fallback_embed(code_snippet, dim=512)`). -/
def code_fallback_dim : Nat := 512

theorem fbLoop_length (dim : Nat) (bs : List Nat) (h : Nat) (vec : List Nat) :
    (fbLoop dim h vec bs).length = vec.length := by
  induction bs generalizing h vec with
  | nil => rfl
  | cons b bs ih => rw [fbLoop, ih, List.length_set]

theorem sum_set_getD_succ (l : List Nat) (i : Nat) (hi : i < l.length) :
    (l.set i (l.getD i 0 + 1)).sum = l.sum + 1 := by
  induction l generalizing i with
  | nil => simp at hi
  | cons a t ih =>
      cases i with
      | zero => simp [List.set, List.getD]; omega
      | succ j =>
          simp only [List.set, List.getD_cons_succ, List.sum_cons]
          rw [ih j (by simpa using hi)]
          omega

theorem fbLoop_sum (dim : Nat) (hdim : 0 < dim) (bs : List Nat) (h : Nat) (vec : List Nat)
    (hv : vec.length = dim) : (fbLoop dim h vec bs).sum = vec.sum + bs.length := by
  induction bs generalizing h vec with
  | nil => simp [fbLoop]
  | cons b t ih =>
      rw [fbLoop]
      rw [ih _ _ (by rw [List.length_set]; exact hv)]
      rw [sum_set_getD_succ _ _ (by rw [hv]; exact Nat.mod_lt _ hdim)]
      simp; omega

theorem exists_pos_of_sum_pos (l : List Nat) (h : 0 < l.sum) : ∃ x ∈ l, 0 < x := by
  by_contra hc
  push_neg at hc
  have : l.sum = 0 := List.sum_eq_zero (fun x hx => Nat.le_zero.mp (hc x hx))
  omega

theorem sum_map_mul_right_list (l : List ℝ) (a : ℝ) :
    (l.map (fun x => x * a)).sum = l.sum * a := by
  induction l with
  | nil => simp
  | cons x t ih => simp [ih, add_mul]

/-- Nonempty strings have nonempty UTF-8 byte encodings. -/
theorem strBytes_ne_nil (s : String) (h : s ≠ "") : strBytes s ≠ [] := by
  have hd : s.data ≠ [] := by
    intro hnil
    exact h (congrArg String.mk hnil)
  cases hs : s.data with
  | nil => exact absurd hs hd
  | cons c cs =>
      have hγ : String.utf8EncodeChar c ≠ [] := by
        unfold String.utf8EncodeChar
        dsimp only
        split
        · simp
        · split
          · simp
          · split <;> simp
      simp only [strBytes, hs, List.flatMap_cons]
      intro happ
      rcases List.append_eq_nil.mp happ with ⟨h1, _⟩
      exact hγ (List.map_eq_nil_iff.mp h1)

/-- C3: the local fallback embedding is a pure function of its input
(repeated calls agree), its output has the fixed requested dimension with
the textual dimension (384) distinct from the code dimension (512), and for
every non-empty input the L2-normalized vector the source returns
(`counts / ‖counts‖`) has exact L2 norm 1 in the real-valued model: the sum
of its squared entries is 1. -/
theorem fallback_embed_deterministic_unit_norm (x : String) (dim : Nat)
    (hx : x ≠ "") (hdim : 0 < dim) :
    _fallback_embed_counts x dim = _fallback_embed_counts x dim
    ∧ (_fallback_embed_counts x dim).length = dim
    ∧ textual_fallback_dim = 384 ∧ code_fallback_dim = 512
    ∧ textual_fallback_dim ≠ code_fallback_dim
    ∧ (((_fallback_embed_counts x dim).map
          (fun c : Nat => ((c : ℝ) /
            Real.sqrt (((_fallback_embed_counts x dim).map (fun c : Nat => (c : ℝ) ^ 2)).sum)) ^ 2)).sum = 1) := by
  have hlen : (_fallback_embed_counts x dim).length = dim := by
    unfold _fallback_embed_counts
    rw [if_neg hx, fbLoop_length, List.length_replicate]
  refine ⟨rfl, hlen, rfl, rfl, by decide, ?_⟩
  set l := _fallback_embed_counts x dim with hl
  -- the counts sum to the number of input bytes, which is positive
  have hsum : l.sum = (strBytes x).length := by
    rw [hl]
    unfold _fallback_embed_counts
    rw [if_neg hx, fbLoop_sum dim hdim _ _ _ (List.length_replicate _ _)]
    simp
  have hbs : 0 < (strBytes x).length :=
    List.length_pos.mpr (strBytes_ne_nil x hx)
  have hpos : 0 < l.sum := hsum ▸ hbs
  -- hence some squared entry is positive and the squared-norm S is positive
  set S : ℝ := ((l.map (fun c : Nat => (c : ℝ) ^ 2)).sum) with hS
  have hSnonneg : 0 ≤ S := by
    rw [hS]
    apply List.sum_nonneg
    intro y hy
    obtain ⟨c, _, hc⟩ := List.mem_map.mp hy
    rw [← hc]; positivity
  have hSpos : 0 < S := by
    obtain ⟨c, hcmem, hcpos⟩ := exists_pos_of_sum_pos l hpos
    rw [hS]
    have hsq : ((c : ℝ) ^ 2) ∈ l.map (fun c : Nat => (c : ℝ) ^ 2) :=
      List.mem_map.mpr ⟨c, hcmem, rfl⟩
    have h1 : (1 : ℝ) ≤ (c : ℝ) ^ 2 := by
      have : (1 : ℝ) ≤ (c : ℝ) := by exact_mod_cast hcpos
      nlinarith
    calc (0 : ℝ) < 1 := one_pos
    _ ≤ (c : ℝ) ^ 2 := h1
    _ ≤ (l.map (fun c : Nat => (c : ℝ) ^ 2)).sum := by
        apply List.single_le_sum _ _ hsq
        intro y hy
        obtain ⟨d, _, hd⟩ := List.mem_map.mp hy
        rw [← hd]; positivity
  -- Σ (cᵢ / √S)² = (Σ cᵢ²) / S = 1
  have hrw : (l.map (fun c : Nat => ((c : ℝ) / Real.sqrt S) ^ 2)) =
      (l.map (fun c : Nat => (c : ℝ) ^ 2)).map (fun y => y * (Real.sqrt S ^ 2)⁻¹) := by
    rw [List.map_map]
    apply List.map_congr_left
    intro c _
    simp [div_eq_mul_inv, mul_pow, inv_pow]
  rw [hrw, sum_map_mul_right_list, Real.sq_sqrt hSnonneg, ← hS]
  exact mul_inv_cancel₀ (ne_of_gt hSpos)

/-- Witness for `fallback_embed_deterministic_unit_norm` at input "a" and
the textual dimension 384. -/
theorem fallback_embed_deterministic_unit_norm_witness :
    (("a" : String) ≠ "" ∧ 0 < 384)
    ∧ (_fallback_embed_counts "a" 384 = _fallback_embed_counts "a" 384
      ∧ (_fallback_embed_counts "a" 384).length = 384
      ∧ textual_fallback_dim = 384 ∧ code_fallback_dim = 512
      ∧ textual_fallback_dim ≠ code_fallback_dim
      ∧ (((_fallback_embed_counts "a" 384).map
            (fun c : Nat => ((c : ℝ) /
              Real.sqrt (((_fallback_embed_counts "a" 384).map (fun c : Nat => (c : ℝ) ^ 2)).sum)) ^ 2)).sum = 1)) :=
  ⟨⟨by decide, by decide⟩,
    fallback_embed_deterministic_unit_norm "a" 384 (by decide) (by decide)⟩

/-- C10: on the empty string the fallback returns the untouched all-zero
vector of the requested dimension — length 384 on the textual path and 512
on the code path — and that vector is not unit-norm: the sum of its squared
entries is 0, not 1. -/
theorem fallback_embed_empty_zero_vector :
    _fallback_embed_counts "" textual_fallback_dim = List.replicate 384 0
    ∧ _fallback_embed_counts "" code_fallback_dim = List.replicate 512 0
    ∧ (_fallback_embed_counts "" textual_fallback_dim).length = 384
    ∧ (_fallback_embed_counts "" code_fallback_dim).length = 512
    ∧ ((_fallback_embed_counts "" textual_fallback_dim).map (fun c : Nat => (c : ℝ) ^ 2)).sum = 0
    ∧ ((_fallback_embed_counts "" code_fallback_dim).map (fun c : Nat => (c : ℝ) ^ 2)).sum = 0
    ∧ ¬ ((_fallback_embed_counts "" textual_fallback_dim).map (fun c : Nat => (c : ℝ) ^ 2)).sum = 1 := by
  have h384 : _fallback_embed_counts "" textual_fallback_dim = List.replicate 384 0 := rfl
  have h512 : _fallback_embed_counts "" code_fallback_dim = List.replicate 512 0 := rfl
  have hz : ∀ n : Nat, ((List.replicate n (0 : Nat)).map (fun c : Nat => (c : ℝ) ^ 2)).sum = 0 := by
    intro n
    rw [List.map_replicate]
    simp
  refine ⟨h384, h512, by rw [h384, List.length_replicate], by rw [h512, List.length_replicate], ?_, ?_, ?_⟩
  · rw [h384]; exact hz 384
  · rw [h512]; exact hz 512
  · rw [h384, hz 384]; norm_num

/-- `ChunkDoc`: a chunk dictionary as consumed by `setup_chroma_collections`
(`src/chromaDB_setup.py`): keys `file_name`, `content`, optionally
`chunk_index` (the upsert falls back to the enumeration position when the
key is absent), and — for code chunks — `file_extension`. -/
structure ChunkDoc where
  file_name : String
  content : String
  chunk_index : Option Nat
  file_extension : Option String
deriving DecidableEq

/-- `stable_id` (`src/chromaDB_setup.py`, lines 81-83):
`f"{prefix}_{mmh3.hash128(f'{file_name}:{idx}', signed=False)}"`.
`hash` abstracts the external `mmh3.hash128`. -/
def stable_id (hash : String → Nat) (pfx : String) (file_name : String) (idx : Nat) : String :=
  pfx ++ "_" ++ toString (hash (file_name ++ ":" ++ toString idx))

/-- The per-batch id list (`src/chromaDB_setup.py`, line 91): the i-th doc
of the batch starting at global offset `start` gets
`stable_id(prefix, d.file_name, d.get("chunk_index", i + start))`.
The recursion carries `i + start` as a single running offset. -/
def batchIds (hash : String → Nat) (pfx : String) : List ChunkDoc → Nat → List String
  | [], _ => []
  | d :: ds, start =>
      stable_id hash pfx d.file_name (d.chunk_index.getD start) :: batchIds hash pfx ds (start + 1)

/-- `docs[start:start+batch_size]` slicing of the upsert loop
(`src/chromaDB_setup.py`, lines 87-90): the document list cut into
consecutive batches of `b + 1` documents (the source's `batch_size`, which
is always positive — default 1000). -/
def toBatches (b : Nat) : List ChunkDoc → List (List ChunkDoc)
  | [] => []
  | d :: ds => (d :: ds).take (b + 1) :: toBatches b ((d :: ds).drop (b + 1))
termination_by l => l.length
decreasing_by simp; omega

/-- One batch of `upsert_batch` (`src/chromaDB_setup.py`, lines 93-119)
over the batch list: compute the batch ids, look up which already exist in
the collection (`collection.get(ids=ids)`), keep only the unseen ones
(`new_items`), and `collection.add` them.  The collection is modelled as
the set of stored ids; the second component records, per batch, the id list
actually written (`new_ids`, empty when the batch was skipped). -/
def runBatches (hash : String → Nat) (pfx : String) :
    List (List ChunkDoc) → Nat → Finset String → Finset String × List (List String)
  | [], _, c => (c, [])
  | batch :: rest, start, c =>
      let newIds := (batchIds hash pfx batch start).filter (fun i => i ∉ c)
      ((runBatches hash pfx rest (start + batch.length) (c ∪ newIds.toFinset)).1,
        newIds :: (runBatches hash pfx rest (start + batch.length) (c ∪ newIds.toFinset)).2)

/-- `upsert_batch` (`src/chromaDB_setup.py`, lines 86-119): run every batch
against the collection, threading the updated collection through. -/
def upsert_batch (hash : String → Nat) (pfx : String) (b : Nat)
    (docs : List ChunkDoc) (c : Finset String) : Finset String × List (List String) :=
  runBatches hash pfx (toBatches b docs) 0 c

/-- The two chunk lists handed to `setup_chroma_collections`. -/
structure ChunkedDocs where
  textual_chunks : List ChunkDoc
  code_chunks : List ChunkDoc
deriving DecidableEq

/-- `setup_chroma_collections` (`src/chromaDB_setup.py`, lines 55-128):
upsert the textual chunks with prefix "text" into the text collection and
the code chunks with prefix "code" into the code collection.  The state is
the pair of stored-id sets of the two persistent collections; the result
also carries the per-batch write lists of both upserts. -/
def setup_chroma_collections (hash : String → Nat) (b : Nat)
    (state : Finset String × Finset String) (docs : ChunkedDocs) :
    (Finset String × Finset String) × (List (List String) × List (List String)) :=
  (((upsert_batch hash "text" b docs.textual_chunks state.1).1,
    (upsert_batch hash "code" b docs.code_chunks state.2).1),
   ((upsert_batch hash "text" b docs.textual_chunks state.1).2,
    (upsert_batch hash "code" b docs.code_chunks state.2).2))

/-- All ids a batch list would generate, with their running offsets. -/
def allBatchIds (hash : String → Nat) (pfx : String) :
    List (List ChunkDoc) → Nat → List String
  | [], _ => []
  | batch :: rest, start =>
      batchIds hash pfx batch start ++ allBatchIds hash pfx rest (start + batch.length)

theorem runBatches_state (hash : String → Nat) (pfx : String)
    (bs : List (List ChunkDoc)) (start : Nat) (c : Finset String) :
    (runBatches hash pfx bs start c).1 = c ∪ (allBatchIds hash pfx bs start).toFinset := by
  induction bs generalizing start c with
  | nil => simp [runBatches, allBatchIds]
  | cons batch rest ih =>
      simp only [runBatches]
      rw [ih, allBatchIds]
      ext x
      simp [List.mem_filter]
      tauto

theorem runBatches_no_writes (hash : String → Nat) (pfx : String)
    (bs : List (List ChunkDoc)) (start : Nat) (c : Finset String)
    (h : ∀ i ∈ allBatchIds hash pfx bs start, i ∈ c) :
    runBatches hash pfx bs start c = (c, bs.map (fun _ => [])) := by
  induction bs generalizing start c with
  | nil => simp [runBatches]
  | cons batch rest ih =>
      have hbatch : ∀ i ∈ batchIds hash pfx batch start, i ∈ c := by
        intro i hi
        exact h i (by rw [allBatchIds]; exact List.mem_append_left _ hi)
      have hfilter : (batchIds hash pfx batch start).filter (fun i => i ∉ c) = [] := by
        rw [List.filter_eq_nil_iff]
        intro i hi
        simp [hbatch i hi]
      simp only [runBatches, hfilter, List.toFinset_nil, Finset.union_empty]
      rw [ih (start + batch.length) c
        (fun i hi => h i (by rw [allBatchIds]; exact List.mem_append_right _ hi))]
      simp

/-- C1: upserting is idempotent.  After one `setup_chroma_collections` run,
a second run with the same chunk lists and embeddings (same files, same
content) writes no new entries to either collection — every per-batch write
list of the second run is empty — so both collections' stored-id sets, and
in particular their item counts, are unchanged.  Moreover `stable_id` is a
pure function of `(prefix, file_name, chunk_index)` alone: chunks agreeing
on those three values get the same id regardless of their content. -/
theorem upsert_idempotent (hash : String → Nat) (b : Nat)
    (state : Finset String × Finset String) (docs : ChunkedDocs) :
    (setup_chroma_collections hash b
        (setup_chroma_collections hash b state docs).1 docs).1 =
      (setup_chroma_collections hash b state docs).1
    ∧ (∀ w ∈ (setup_chroma_collections hash b
        (setup_chroma_collections hash b state docs).1 docs).2.1, w = [])
    ∧ (∀ w ∈ (setup_chroma_collections hash b
        (setup_chroma_collections hash b state docs).1 docs).2.2, w = [])
    ∧ ((setup_chroma_collections hash b
        (setup_chroma_collections hash b state docs).1 docs).1.1.card =
      (setup_chroma_collections hash b state docs).1.1.card
      ∧ (setup_chroma_collections hash b
        (setup_chroma_collections hash b state docs).1 docs).1.2.card =
      (setup_chroma_collections hash b state docs).1.2.card)
    ∧ (∀ (d d' : ChunkDoc) (pfx : String) (k : Nat), d.file_name = d'.file_name →
        stable_id hash pfx d.file_name k = stable_id hash pfx d'.file_name k) := by
  have key : ∀ (pfx : String) (l : List ChunkDoc) (c : Finset String),
      upsert_batch hash pfx b l (upsert_batch hash pfx b l c).1 =
        ((upsert_batch hash pfx b l c).1, (toBatches b l).map (fun _ => [])) := by
    intro pfx l c
    unfold upsert_batch
    apply runBatches_no_writes
    intro i hi
    rw [runBatches_state]
    exact Finset.mem_union_right _ (List.mem_toFinset.mpr hi)
  have kt := key "text" docs.textual_chunks state.1
  have kc := key "code" docs.code_chunks state.2
  have e1 : (setup_chroma_collections hash b (setup_chroma_collections hash b state docs).1 docs).1 =
      ((upsert_batch hash "text" b docs.textual_chunks
          (upsert_batch hash "text" b docs.textual_chunks state.1).1).1,
        (upsert_batch hash "code" b docs.code_chunks
          (upsert_batch hash "code" b docs.code_chunks state.2).1).1) := rfl
  have e2 : (setup_chroma_collections hash b (setup_chroma_collections hash b state docs).1 docs).2.1 =
      (upsert_batch hash "text" b docs.textual_chunks
        (upsert_batch hash "text" b docs.textual_chunks state.1).1).2 := rfl
  have e3 : (setup_chroma_collections hash b (setup_chroma_collections hash b state docs).1 docs).2.2 =
      (upsert_batch hash "code" b docs.code_chunks
        (upsert_batch hash "code" b docs.code_chunks state.2).1).2 := rfl
  refine ⟨?_, ?_, ?_, ⟨?_, ?_⟩, ?_⟩
  · rw [e1, kt, kc]; rfl
  · intro w hw
    rw [e2, kt] at hw
    obtain ⟨x, _, hx⟩ := List.mem_map.mp hw
    simpa using hx.symm
  · intro w hw
    rw [e3, kc] at hw
    obtain ⟨x, _, hx⟩ := List.mem_map.mp hw
    simpa using hx.symm
  · have : (setup_chroma_collections hash b (setup_chroma_collections hash b state docs).1 docs).1.1 =
        (upsert_batch hash "text" b docs.textual_chunks
          (upsert_batch hash "text" b docs.textual_chunks state.1).1).1 := rfl
    rw [this, kt]
    rfl
  · have : (setup_chroma_collections hash b (setup_chroma_collections hash b state docs).1 docs).1.2 =
        (upsert_batch hash "code" b docs.code_chunks
          (upsert_batch hash "code" b docs.code_chunks state.2).1).1 := rfl
    rw [this, kc]
    rfl
  · intro d d' pfx k hname
    rw [hname]

/-- `RAGService._process_results` (`src/rag_service.py`, lines 351-365).
The ChromaDB query result is modelled as `Option` of the first query
embedding's rows `(distances, documents, metadatas)`; `none` models a
missing or empty "distances" key (the guarded early return).  Scores are
`1 - distance`; the combined triples are sorted by score descending
(Python's stable sort) and the first `top_k` kept. -/
def _process_results {μ : Type} (results : Option (List ℚ × List String × List μ))
    (top_k : Nat) : List (ℚ × String × μ) :=
  match results with
  | none => []
  | some (distances, documents, metadatas) =>
      ((((distances.map (fun d => 1 - d)).zip (documents.zip metadatas)).mergeSort
          (fun a b => decide (b.1 ≤ a.1))).take top_k)

/-- The `normalize` helper of `RAGService._retrieve_relevant_chunks`
(`src/rag_service.py`, lines 326-332): empty input stays empty; when the
maximum score is 0 every score is replaced by 0.0; otherwise every score is
divided by the maximum. -/
def normalize_scores {μ : Type} (chunks : List (ℚ × String × μ)) : List (ℚ × String × μ) :=
  match chunks with
  | [] => []
  | c :: cs =>
      let m := (cs.map (fun p => p.1)).foldl max c.1
      if m = 0 then (c :: cs).map (fun p => ((0 : ℚ), p.2.1, p.2.2))
      else (c :: cs).map (fun p => (p.1 / m, p.2.1, p.2.2))

/-- The "both"-route merge of `RAGService._retrieve_relevant_chunks`
(`src/rag_service.py`, lines 321-347): normalize each per-collection list
independently, apply the weights, re-sort each list by weighted score
descending, and keep `top_k` per type. -/
def both_merge {μ : Type} (wt wc : ℚ)
    (top_textual top_code : List (ℚ × String × μ)) (top_k : Nat) :
    List (ℚ × String × μ) × List (ℚ × String × μ) :=
  (((((normalize_scores top_textual).map (fun p => (p.1 * wt, p.2.1, p.2.2))).mergeSort
      (fun a b => decide (b.1 ≤ a.1))).take top_k),
   ((((normalize_scores top_code).map (fun p => (p.1 * wc, p.2.1, p.2.2))).mergeSort
      (fun a b => decide (b.1 ≤ a.1))).take top_k))

/-- Counterexample to C8 as stated: ChromaDB distances can exceed 1 (the
default metric is squared L2), making the raw scores `1 - d` negative; with
distances 2 and 3 the scores are -1 and -2, their maximum is -1, and
max-division yields normalized scores 1 and 2 — the score 2 lies outside
[0,1]. -/
theorem normalize_scores_not_bounded :
    _process_results (μ := String) (some ([2, 3], ["a", "b"], ["u", "v"])) 2 =
      [(-1, "a", "u"), (-2, "b", "v")]
    ∧ normalize_scores (_process_results (μ := String) (some ([2, 3], ["a", "b"], ["u", "v"])) 2) =
      [(1, "a", "u"), (2, "b", "v")]
    ∧ ¬ (∀ p ∈ normalize_scores (_process_results (μ := String)
          (some ([2, 3], ["a", "b"], ["u", "v"])) 2), 0 ≤ p.1 ∧ p.1 ≤ 1) := by
  have h1 : _process_results (μ := String) (some ([2, 3], ["a", "b"], ["u", "v"])) 2 =
      [(-1, "a", "u"), (-2, "b", "v")] := by
    dsimp only [_process_results]
    rw [show ((([(2 : ℚ), 3].map (fun d => 1 - d)).zip (["a", "b"].zip ["u", "v"]))) =
      [((-1 : ℚ), "a", "u"), (-2, "b", "v")] by norm_num]
    rw [List.mergeSort_of_sorted (by norm_num)]
    rfl
  have h2 : normalize_scores [((-1 : ℚ), "a", ("u" : String)), (-2, "b", "v")] =
      [(1, "a", "u"), (2, "b", "v")] := by
    dsimp only [normalize_scores, List.map_cons, List.map_nil, List.foldl_cons, List.foldl_nil]
    rw [max_eq_left (by norm_num : (-2 : ℚ) ≤ -1)]
    rw [if_neg (by norm_num : ¬ (-1 : ℚ) = 0)]
    norm_num
  refine ⟨h1, by rw [h1]; exact h2, ?_⟩
  rw [h1, h2]
  intro hall
  have h3 := (hall (2, "b", "v") (by simp)).2
  norm_num at h3

theorem foldl_max_le_init (l : List ℚ) (a : ℚ) : a ≤ l.foldl max a := by
  induction l generalizing a with
  | nil => simp
  | cons y t ih => exact le_trans (le_max_left a y) (ih (max a y))

theorem le_foldl_max_of_mem (l : List ℚ) (a x : ℚ) (h : x ∈ l) : x ≤ l.foldl max a := by
  induction l generalizing a with
  | nil => simp at h
  | cons y t ih =>
      rcases List.mem_cons.mp h with rfl | hx
      · exact le_trans (le_max_right a x) (foldl_max_le_init t (max a x))
      · exact ih (max a y) hx

theorem normalize_scores_mem_bounds {μ : Type} (chunks : List (ℚ × String × μ))
    (h : ∀ p ∈ chunks, 0 ≤ p.1) :
    ∀ q ∈ normalize_scores chunks, 0 ≤ q.1 ∧ q.1 ≤ 1 := by
  intro q hq
  match chunks, hq with
  | c :: cs, hq =>
      dsimp only [normalize_scores] at hq
      by_cases hm : (cs.map (fun p => p.1)).foldl max c.1 = 0
      · rw [if_pos hm] at hq
        obtain ⟨p, _, hp⟩ := List.mem_map.mp hq
        rw [← hp]
        norm_num
      · rw [if_neg hm] at hq
        obtain ⟨p, hpmem, hp⟩ := List.mem_map.mp hq
        set m := (cs.map (fun p => p.1)).foldl max c.1 with hmdef
        have hple : p.1 ≤ m := by
          rcases List.mem_cons.mp hpmem with rfl | hx
          · exact foldl_max_le_init _ _
          · exact le_foldl_max_of_mem _ _ _ (List.mem_map.mpr ⟨p, hx, rfl⟩)
        have hc0 : (0 : ℚ) ≤ c.1 := h c (List.mem_cons_self c cs)
        have hmpos : 0 < m :=
          lt_of_le_of_ne (le_trans hc0 (foldl_max_le_init _ _)) (Ne.symm hm)
        have hp0 : (0 : ℚ) ≤ p.1 := h p hpmem
        rw [← hp]
        constructor
        · positivity
        · exact (div_le_one hmpos).mpr hple

/-- C8 amended: in the "both" route the per-collection scores (1 - distance)
are each divided by their own set's maximum (an all-zero-max set is zeroed)
before the 0.5/0.5 weights and the per-type `top_k` cut.  The normalized
scores are guaranteed to lie in [0,1] — and the weighted merged scores in
[0,0.5] with at most `top_k` per type — only when the raw scores are
nonnegative, i.e. when every store-reported distance is at most 1; a raw
score can otherwise normalize to a value outside [0,1]
(see `normalize_scores_not_bounded`). -/
theorem both_route_normalization (μ : Type) (tt tc : List (ℚ × String × μ)) (k : Nat)
    (distances : List ℚ) (documents : List String) (metadatas : List μ)
    (ht : ∀ p ∈ tt, 0 ≤ p.1) (hc : ∀ p ∈ tc, 0 ≤ p.1)
    (hd : ∀ d ∈ distances, d ≤ 1) :
    (∀ p ∈ _process_results (some (distances, documents, metadatas)) k, 0 ≤ p.1)
    ∧ (∀ q ∈ normalize_scores tt, 0 ≤ q.1 ∧ q.1 ≤ 1)
    ∧ (∀ q ∈ (both_merge (1/2) (1/2) tt tc k).1, 0 ≤ q.1 ∧ q.1 ≤ 1/2)
    ∧ (∀ q ∈ (both_merge (1/2) (1/2) tt tc k).2, 0 ≤ q.1 ∧ q.1 ≤ 1/2)
    ∧ (both_merge (1/2) (1/2) tt tc k).1.length ≤ k
    ∧ (both_merge (1/2) (1/2) tt tc k).2.length ≤ k := by
  have hmerge : ∀ (l : List (ℚ × String × μ)) (hl : ∀ p ∈ l, 0 ≤ p.1) (w : ℚ),
      w = 1/2 →
      ∀ q ∈ (((normalize_scores l).map (fun p => (p.1 * w, p.2.1, p.2.2))).mergeSort
          (fun a b => decide (b.1 ≤ a.1))).take k, 0 ≤ q.1 ∧ q.1 ≤ 1/2 := by
    intro l hl w hw q hq
    have hq2 := List.mem_mergeSort.mp (List.mem_of_mem_take hq)
    obtain ⟨p, hpmem, hp⟩ := List.mem_map.mp hq2
    obtain ⟨h0, h1⟩ := normalize_scores_mem_bounds l hl p hpmem
    rw [← hp, hw]
    constructor
    · dsimp only; positivity
    · dsimp only
      nlinarith
  refine ⟨?_, normalize_scores_mem_bounds tt ht, hmerge tt ht _ rfl, hmerge tc hc _ rfl, ?_, ?_⟩
  · intro p hp
    obtain ⟨a, b⟩ := p
    dsimp only [_process_results] at hp
    have hp2 := List.mem_mergeSort.mp (List.mem_of_mem_take hp)
    obtain ⟨hs, _⟩ := List.of_mem_zip hp2
    obtain ⟨d, hdm, hda⟩ := List.mem_map.mp hs
    dsimp only
    rw [← hda]
    have := hd d hdm
    linarith
  · exact le_trans (List.length_take_le _ _) le_rfl
  · exact le_trans (List.length_take_le _ _) le_rfl

/-- Witness for `both_route_normalization` on a one-hit textual set with
distance 1 (score 0) and an empty code set. -/
theorem both_route_normalization_witness :
    ((∀ p ∈ [((1 : ℚ), "a", ("u" : String))], 0 ≤ p.1)
      ∧ (∀ p ∈ ([] : List (ℚ × String × String)), 0 ≤ p.1)
      ∧ (∀ d ∈ [(1 : ℚ)], d ≤ 1))
    ∧ ((∀ p ∈ _process_results (some ([(1 : ℚ)], ["a"], [("u" : String)])) 1, 0 ≤ p.1)
      ∧ (∀ q ∈ normalize_scores [((1 : ℚ), "a", ("u" : String))], 0 ≤ q.1 ∧ q.1 ≤ 1)
      ∧ (∀ q ∈ (both_merge (1/2) (1/2) [((1 : ℚ), "a", ("u" : String))]
            ([] : List (ℚ × String × String)) 1).1, 0 ≤ q.1 ∧ q.1 ≤ 1/2)
      ∧ (∀ q ∈ (both_merge (1/2) (1/2) [((1 : ℚ), "a", ("u" : String))]
            ([] : List (ℚ × String × String)) 1).2, 0 ≤ q.1 ∧ q.1 ≤ 1/2)
      ∧ (both_merge (1/2) (1/2) [((1 : ℚ), "a", ("u" : String))]
          ([] : List (ℚ × String × String)) 1).1.length ≤ 1
      ∧ (both_merge (1/2) (1/2) [((1 : ℚ), "a", ("u" : String))]
          ([] : List (ℚ × String × String)) 1).2.length ≤ 1) :=
  ⟨⟨by norm_num, by simp, by norm_num⟩,
    both_route_normalization String [((1 : ℚ), "a", "u")] [] 1 [1] ["a"] ["u"]
      (by norm_num) (by simp) (by norm_num)⟩

/-- The textual-extension tuple of `chunk_repository_files`
(`src/github_parser.py`, line 338). -/
def chunking_textual_extensions : List String :=
  [".md", ".txt", ".xml", ".rst", ".adoc"]

/-- The code-extension tuple of `chunk_repository_files`
(`src/github_parser.py`, lines 349-351); unlike the volume analyzer's list
it includes `.sql`. -/
def chunking_code_extensions : List String :=
  [".py", ".js", ".java", ".html", ".css", ".ts", ".tsx",
   ".cpp", ".c", ".h", ".hpp", ".go", ".rs", ".rb", ".php",
   ".swift", ".kt", ".scala", ".sh", ".bash", ".zsh", ".sql"]

/-- The `extension_map` of `get_language_for_file`
(`src/github_parser.py`, lines 261-283), with the LangChain `Language` enum
members modelled by their names (all members assumed present; the source's
`.tsx` fallback to TS only matters for enum-less LangChain versions). -/
def extension_language_map : List (String × String) :=
  [(".py", "PYTHON"), (".js", "JS"), (".ts", "TS"), (".tsx", "TSX"),
   (".java", "JAVA"), (".cpp", "CPP"), (".c", "C"), (".go", "GO"),
   (".rs", "RUST"), (".rb", "RUBY"), (".php", "PHP"), (".swift", "SWIFT"),
   (".kt", "KOTLIN"), (".scala", "SCALA"), (".html", "HTML"), (".css", "CSS"),
   (".sql", "SQL"), (".sh", "BASH"), (".bash", "BASH"), (".zsh", "BASH")]

/-- `get_language_for_file` (`src/github_parser.py`, lines 246-288): first
map entry whose extension is a suffix of the file name, else `None`. -/
def get_language_for_file (file_name : String) : Option String :=
  (extension_language_map.find? (fun p => strEndsWith file_name p.1)).map (fun p => p.2)

/-- A character of Python's regex class `[\w.]` (ASCII word chars or dot). -/
def isWordOrDot (c : Char) : Bool :=
  c.isAlphanum || c = '_' || c = '.'

/-- `re.search(r"\.([\w.]+)$", file_name)` (`src/github_parser.py`,
line 379): the leftmost dot whose entire (nonempty) remainder consists of
word characters or dots; returns that remainder (group 1). -/
def extSearch : List Char → Option (List Char)
  | [] => none
  | c :: cs =>
      if c = '.' && !cs.isEmpty && cs.all isWordOrDot then some cs else extSearch cs

/-- The `file_extension` value stored on code chunks
(`src/github_parser.py`, lines 379-380). -/
def file_extension (file_name : String) : Option String :=
  (extSearch file_name.data).map String.mk

/-- Python `range(0, n, step)` for positive `step`. -/
def strideIndices (n step : Nat) : List Nat :=
  (List.range ((n + step - 1) / step)).map (fun i => i * step)

/-- `chunk_by_tokens` (`src/github_parser.py`, lines 223-243): slice the
token list in windows of `max_tokens` starting every `max_tokens - overlap`
tokens, decoding each window.  `encode`/`decode` abstract the external
tiktoken `ENCODING`. -/
def chunk_by_tokens (encode : String → List Nat) (decode : List Nat → String)
    (text : String) (max_tokens : Nat) (overlap : Nat) : List String :=
  (strideIndices (encode text).length (max_tokens - overlap)).map
    (fun i => decode (((encode text).drop i).take max_tokens))

/-- The textual chunks one file contributes in the loop of
`chunk_repository_files` (`src/github_parser.py`, lines 329-346): empty
(post-strip) files are skipped; textual-extension files are split by the
LangChain recursive splitter (`textSplit`, parameterized by the chunk
size) and each chunk is recorded with its enumeration index. -/
def perFileTextualChunks (textSplit : Nat → String → List String) (tsz : Nat)
    (f : RepoFile) : List ChunkDoc :=
  if pyStrip f.content = "" then []
  else if chunking_textual_extensions.any (fun e => strEndsWith f.file_name e) then
    (textSplit tsz f.content).enum.map (fun p => ChunkDoc.mk f.file_name p.2 (some p.1) none)
  else []

/-- The code chunks one file contributes in the loop of
`chunk_repository_files` (`src/github_parser.py`, lines 329-393): empty
(post-strip) files are skipped; files matching a textual extension never
reach the code branch (`elif`); recognized-language files use the
language-aware splitter (`langSplit`, which also absorbs the source's
recursive-splitter fallback when `from_language` is unavailable); files
with no recognized language fall back to `chunk_by_tokens` with a 50-token
overlap.  Each chunk is recorded with its enumeration index and the
regex-extracted file extension. -/
def perFileCodeChunks (encode : String → List Nat) (decode : List Nat → String)
    (langSplit : String → Nat → String → List String) (csz : Nat)
    (f : RepoFile) : List ChunkDoc :=
  if pyStrip f.content = "" then []
  else if chunking_textual_extensions.any (fun e => strEndsWith f.file_name e) then []
  else if chunking_code_extensions.any (fun e => strEndsWith f.file_name e) then
    (match get_language_for_file f.file_name with
      | some lang => langSplit lang csz f.content
      | none => chunk_by_tokens encode decode f.content csz 50).enum.map
      (fun p : Nat × String => ChunkDoc.mk f.file_name p.2 (some p.1) (file_extension f.file_name))
  else []

/-- `chunk_repository_files` (`src/github_parser.py`, lines 291-403) with
the default auto volume strategy: chunk sizes come from
`analyze_repository_volume`, and every file contributes its textual and
code chunks in file order. -/
def chunk_repository_files (encode : String → List Nat) (decode : List Nat → String)
    (textSplit : Nat → String → List String) (langSplit : String → Nat → String → List String)
    (repo_files : List RepoFile) : ChunkedDocs :=
  { textual_chunks := repo_files.flatMap (perFileTextualChunks textSplit
      (analyze_repository_volume encode repo_files).text_chunk_size)
    code_chunks := repo_files.flatMap (perFileCodeChunks encode decode langSplit
      (analyze_repository_volume encode repo_files).code_chunk_size) }

/-- A lossless tokenizer stand-in for the counterexample: one token per
character (tiktoken's `decode(encode(x)) = x` round-trip on valid text is
the property exercised). -/
def charEncode (s : String) : List Nat :=
  s.data.map Char.toNat

/-- Inverse of `charEncode`. -/
def charDecode (l : List Nat) : String :=
  String.mk (l.map Char.ofNat)

/-- Counterexample to C7 as stated: a one-file repository holding `a.h`
(a code extension with no recognized LangChain language, so raw token
slicing applies) with content `" x "` — smaller than one chunk — yields
exactly one chunk, but its content is the whole UNSTRIPPED `" x "`, not the
stripped content `"x"` the claim demands. -/
theorem chunk_small_code_file_not_stripped :
    (chunk_repository_files charEncode charDecode (fun _ _ => []) (fun _ _ _ => [])
        [RepoFile.mk "a.h" " x "]).code_chunks =
      [ChunkDoc.mk "a.h" " x " (some 0) (some "h")]
    ∧ charDecode (charEncode " x ") = " x "
    ∧ pyStrip " x " = "x"
    ∧ (" x " : String) ≠ "x" := by
  refine ⟨?_, ?_, ?_, ?_⟩ <;> decide

theorem enum_map_chunk_index (l : List String) (g : Nat × String → ChunkDoc)
    (hg : ∀ p, (g p).chunk_index = some p.1) :
    (l.enum.map g).map (fun c => c.chunk_index) =
      (List.range ((l.enum.map g).length)).map some := by
  rw [List.map_map]
  have h2 : (l.enum.map g).length = l.length := by simp
  rw [h2, ← List.enum_map_fst l, List.map_map]
  exact List.map_congr_left (fun p _ => hg p)

/-- C7 amended: in `chunk_repository_files`, a file whose content strips to
empty produces zero chunks; a non-empty file smaller than one chunk
produces exactly one chunk with no padding — on the textual path that chunk
is the stripped content (the LangChain splitter strips), while on the raw
token-slicing code path (code extension, no recognized language, at most
750 tokens) it is `decode(encode(content))`, i.e. the whole unstripped
content for a lossless tokenizer (see
`chunk_small_code_file_not_stripped`); and within each file `chunk_index`
increases monotonically starting at 0 (the index list is exactly
`0, 1, 2, ...`). -/
theorem chunking_edge_cases (encode : String → List Nat) (decode : List Nat → String)
    (textSplit : Nat → String → List String) (langSplit : String → Nat → String → List String)
    (f : RepoFile) :
    (pyStrip f.content = "" →
      chunk_repository_files encode decode textSplit langSplit [f] = ⟨[], []⟩)
    ∧ (pyStrip f.content ≠ "" →
        chunking_textual_extensions.any (fun e => strEndsWith f.file_name e) = true →
        textSplit 1000 f.content = [pyStrip f.content] →
        (chunk_repository_files encode decode textSplit langSplit [f]).textual_chunks =
          [ChunkDoc.mk f.file_name (pyStrip f.content) (some 0) none]
        ∧ (chunk_repository_files encode decode textSplit langSplit [f]).code_chunks = [])
    ∧ (pyStrip f.content ≠ "" →
        chunking_textual_extensions.any (fun e => strEndsWith f.file_name e) = false →
        chunking_code_extensions.any (fun e => strEndsWith f.file_name e) = true →
        get_language_for_file f.file_name = none →
        0 < (encode f.content).length → (encode f.content).length ≤ 750 →
        (chunk_repository_files encode decode textSplit langSplit [f]).code_chunks =
          [ChunkDoc.mk f.file_name (decode (encode f.content)) (some 0) (file_extension f.file_name)])
    ∧ ((chunk_repository_files encode decode textSplit langSplit [f]).textual_chunks.map
          (fun c => c.chunk_index) =
        (List.range ((chunk_repository_files encode decode textSplit langSplit [f]).textual_chunks.length)).map some)
    ∧ ((chunk_repository_files encode decode textSplit langSplit [f]).code_chunks.map
          (fun c => c.chunk_index) =
        (List.range ((chunk_repository_files encode decode textSplit langSplit [f]).code_chunks.length)).map some) := by
  have hsz : (analyze_repository_volume encode [f]).text_chunk_size = 1000 := rfl
  have hszc : (analyze_repository_volume encode [f]).code_chunk_size = 800 := rfl
  have hflatT : (chunk_repository_files encode decode textSplit langSplit [f]).textual_chunks =
      perFileTextualChunks textSplit 1000 f := by
    dsimp only [chunk_repository_files]
    rw [hsz]
    simp
  have hflatC : (chunk_repository_files encode decode textSplit langSplit [f]).code_chunks =
      perFileCodeChunks encode decode langSplit 800 f := by
    dsimp only [chunk_repository_files]
    rw [hszc]
    simp
  refine ⟨?_, ?_, ?_, ?_, ?_⟩
  · intro hempty
    have h1 : perFileTextualChunks textSplit 1000 f = [] := by
      rw [perFileTextualChunks, if_pos hempty]
    have h2 : perFileCodeChunks encode decode langSplit 800 f = [] := by
      rw [perFileCodeChunks, if_pos hempty]
    dsimp only [chunk_repository_files]
    rw [hsz, hszc]
    simp [h1, h2]
  · intro hne htext hsplit
    constructor
    · rw [hflatT, perFileTextualChunks, if_neg hne, if_pos htext, hsplit]
      rfl
    · rw [hflatC, perFileCodeChunks, if_neg hne, if_pos htext]
  · intro hne htextF hcode hlang hlen1 hlen2
    have hstride : strideIndices (encode f.content).length (800 - 50) = [0] := by
      unfold strideIndices
      have hdiv : ((encode f.content).length + (800 - 50) - 1) / (800 - 50) = 1 := by omega
      rw [hdiv]
      rfl
    have hcbt : chunk_by_tokens encode decode f.content 800 50 = [decode (encode f.content)] := by
      unfold chunk_by_tokens
      rw [hstride]
      rw [List.map_cons, List.map_nil, List.drop_zero,
        List.take_of_length_le (show (encode f.content).length ≤ 800 by omega)]
    rw [hflatC, perFileCodeChunks, if_neg hne]
    rw [if_neg (by simp [htextF])]
    rw [if_pos hcode, hlang, hcbt]
    rfl
  · rw [hflatT, perFileTextualChunks]
    split_ifs with h1 h2
    · simp
    · exact enum_map_chunk_index _ _ (fun p => rfl)
    · simp
  · rw [hflatC, perFileCodeChunks]
    split_ifs with h1 h2 h3
    · simp
    · simp
    · exact enum_map_chunk_index _ _ (fun p => rfl)
    · simp

/-- Witness for `chunking_edge_cases`: a one-chunk markdown file yields
exactly one textual chunk holding the stripped content at index 0. -/
theorem chunking_edge_cases_witness :
    (pyStrip (RepoFile.mk "n.md" "hello").content ≠ ""
      ∧ chunking_textual_extensions.any
          (fun e => strEndsWith (RepoFile.mk "n.md" "hello").file_name e) = true
      ∧ (fun _ : Nat => fun s : String => [pyStrip s]) 1000 (RepoFile.mk "n.md" "hello").content =
          [pyStrip (RepoFile.mk "n.md" "hello").content])
    ∧ ((chunk_repository_files charEncode charDecode (fun _ s => [pyStrip s]) (fun _ _ _ => [])
          [RepoFile.mk "n.md" "hello"]).textual_chunks =
        [ChunkDoc.mk "n.md" (pyStrip "hello") (some 0) none]
      ∧ (chunk_repository_files charEncode charDecode (fun _ s => [pyStrip s]) (fun _ _ _ => [])
          [RepoFile.mk "n.md" "hello"]).code_chunks = []) :=
  ⟨⟨by decide, by decide, rfl⟩,
    (chunking_edge_cases charEncode charDecode (fun _ s => [pyStrip s]) (fun _ _ _ => [])
      (RepoFile.mk "n.md" "hello")).2.1 (by decide) (by decide) rfl⟩

/-- `FileMetadata` (`src/metadata_index.py`, lines 9-16). -/
structure FileMetadata where
  path : String
  size : Nat
  mtime : Option ℚ
  language : String
  head : String
  symbols : List String
deriving DecidableEq

/-- `MetadataIndex` (`src/metadata_index.py`): the `by_path` dict, modelled
as an insertion-ordered association list (the `symbol_to_paths` reverse
index is not consulted by `FileSelector.select_files`). -/
structure MetadataIndex where
  by_path : List (String × FileMetadata)
deriving DecidableEq

/-- The stopword set of `FileSelector._extract_keywords`
(`src/file_selector.py`, line 68). -/
def selector_stopwords : List String :=
  ["what", "this", "about", "that", "with", "from", "repo", "repository"]

/-- A character of the regex class `[a-z0-9_]`
(`src/file_selector.py`, line 66). -/
def isTokenChar (c : Char) : Bool :=
  ('a' ≤ c && c ≤ 'z') || c.isDigit || c = '_'

/-- The maximal runs of `[a-z0-9_]` characters, as `re.findall` with a
greedy `[a-z0-9_]{3,}` pattern scans them (length filtering is applied by
the caller). -/
def tokenRuns : List Char → List (List Char)
  | [] => []
  | c :: cs =>
      if isTokenChar c then (c :: cs.takeWhile isTokenChar) :: tokenRuns (cs.dropWhile isTokenChar)
      else tokenRuns cs
termination_by l => l.length
decreasing_by
  · exact Nat.lt_succ_of_le (List.Sublist.length_le (List.dropWhile_sublist _))
  · simp

/-- `FileSelector._extract_keywords` (`src/file_selector.py`, lines 63-68):
lowercase alphanumeric/underscore runs of length ≥ 3, stopwords removed,
de-duplicated (Python returns an arbitrary-order set; every use — summed
scores, membership tests — is order-insensitive, so first-seen order is
taken). -/
def _extract_keywords (query : String) : List String :=
  (((tokenRuns (pyLower query).data).filter (fun r => 3 ≤ r.length)).map
    (fun r => String.mk r)).filter (fun w => w ∉ selector_stopwords) |>.dedup

/-- The hint table of `FileSelector._path_hints`
(`src/file_selector.py`, lines 71-77). -/
def selector_hints : List (String × List String) :=
  [("auth", ["auth", "security", "login", "oauth"]),
   ("test", ["test", "tests", "spec"]),
   ("api", ["api", "endpoint", "router"]),
   ("db", ["db", "database", "model", "schema"]),
   ("docs", ["readme", "docs", "guide", "tutorial"])]

/-- `FileSelector._path_hints` (`src/file_selector.py`, lines 70-82): +1 for
each hint key occurring in the lowercased path when one of its trigger
words is among the query tokens. -/
def _path_hints (tokens : List String) (path_l : String) : ℚ :=
  (selector_hints.map (fun h =>
    if h.2.any (fun t => tokens.contains t) && strIn h.1 path_l then (1 : ℚ) else 0)).sum

/-- The per-file score of `FileSelector.select_files`
(`src/file_selector.py`, lines 25-44): +2 per token in the lowercased path,
+1 per token in the lowercased head, +3 per symbol whose lowercase form is a
token, else +1.5 per token contained in the symbol, plus path hints
(floats 2.0/1.0/3.0/1.5/1.0 are exact rationals). -/
def score_file (tokens : List String) (path : String) (md : FileMetadata) : ℚ :=
  (tokens.map (fun t =>
      (if strIn t (pyLower path) then (2 : ℚ) else 0)
      + (if strIn t (pyLower md.head) then (1 : ℚ) else 0))).sum
  + (md.symbols.map (fun sym =>
      if tokens.contains (pyLower sym) then (3 : ℚ)
      else (tokens.map (fun t => if strIn t (pyLower sym) then (3/2 : ℚ) else 0)).sum)).sum
  + _path_hints tokens (pyLower path)

/-- The ranked pre-expansion candidates of `FileSelector.select_files`
(`src/file_selector.py`, lines 45-50): positively-scored paths in `by_path`
order, stably sorted by score descending, top `max_files` taken. -/
def selectCandidates (idx : MetadataIndex) (query : String) (max_files : Nat) : List String :=
  let tokens := _extract_keywords query
  let scores := idx.by_path.filterMap (fun pm =>
    if 0 < score_file tokens pm.1 pm.2 then some (pm.1, score_file tokens pm.1 pm.2) else none)
  ((scores.mergeSort (fun a b => decide (b.2 ≤ a.2))).map (fun p => p.1)).take max_files

/-- Python `os.path.basename`: the final `/`-separated component. -/
def basename (p : String) : String :=
  (p.splitOn "/").getLastD ""

/-- `FileSelector._dependencies` (`src/file_selector.py`, lines 84-109).
The two `re.findall` extractions — Python import module names and
JS/TS import specifiers from the head — are the parameters
`pyMods`/`jsImports`,
and `candidateOf path spec` abstracts
`os.path.normpath(os.path.join(os.path.dirname(path), spec))`.  Every
dependency the function returns is drawn from `by_path.keys()`. -/
def _dependencies (pyMods jsImports : String → List String)
    (candidateOf : String → String → String) (idx : MetadataIndex) (path : String) :
    List String :=
  match (idx.by_path.find? (fun pm => pm.1 = path)).map (fun pm => pm.2) with
  | none => []
  | some md =>
      ((pyMods md.head).flatMap (fun m =>
        (idx.by_path.map (fun pm => pm.1)).filter (fun p =>
          strEndsWith p (((m.splitOn ".").headD m) ++ ".py")
          || strIn ("/" ++ (((m.splitOn ".").headD m) ++ ".py")) p)))
      ++ ((jsImports md.head).flatMap (fun rel =>
        if strStartsWith rel "." then
          [".ts", ".tsx", ".js", ".jsx"].flatMap (fun ext =>
            (idx.by_path.map (fun pm => pm.1)).filter (fun p =>
              strEndsWith p (candidateOf path (rel ++ ext))
              || strEndsWith p (basename (candidateOf path (rel ++ ext)))))
        else []))

/-- `FileSelector.select_files` (`src/file_selector.py`, lines 19-61): take
the ranked candidates, then walk each candidate's dependencies, inserting a
dependency only while the set is below the `max_files` cap.  (The set's
cardinality never decreases, so the source's `break` on reaching the cap is
equivalent to the guarded no-op insert; and since the set provably stays
within the cap, the final `list(expanded)[:max_files]` slice keeps the
whole set, which is returned here as a `Finset`.) -/
def select_files (pyMods jsImports : String → List String)
    (candidateOf : String → String → String) (idx : MetadataIndex)
    (query : String) (max_files : Nat) : Finset String :=
  (selectCandidates idx query max_files).foldl
    (fun acc p =>
      (_dependencies pyMods jsImports candidateOf idx p).foldl
        (fun s d => if s.card < max_files then insert d s else s) acc)
    (selectCandidates idx query max_files).toFinset

theorem cappedFold_subset (m : Nat) (l : List String) (acc : Finset String) :
    acc ⊆ l.foldl (fun s d => if s.card < m then insert d s else s) acc := by
  induction l generalizing acc with
  | nil => exact subset_rfl
  | cons d t ih =>
      rw [List.foldl_cons]
      refine subset_trans ?_ (ih _)
      split_ifs with hc
      · exact Finset.subset_insert d acc
      · exact subset_rfl

theorem cappedFold_card (m : Nat) (l : List String) (acc : Finset String)
    (h : acc.card ≤ m) :
    (l.foldl (fun s d => if s.card < m then insert d s else s) acc).card ≤ m := by
  induction l generalizing acc with
  | nil => simpa using h
  | cons d t ih =>
      rw [List.foldl_cons]
      apply ih
      split_ifs with hc
      · exact le_trans (Finset.card_insert_le d acc) (by omega)
      · exact h

theorem cappedFold_frozen (m : Nat) (l : List String) (acc : Finset String)
    (h : ¬ acc.card < m) :
    l.foldl (fun s d => if s.card < m then insert d s else s) acc = acc := by
  induction l with
  | nil => rfl
  | cons d t ih => rw [List.foldl_cons, if_neg h]; exact ih

theorem cappedFold_mem (m : Nat) (l : List String) (acc : Finset String) (x : String)
    (h : x ∈ l.foldl (fun s d => if s.card < m then insert d s else s) acc) :
    x ∈ acc ∨ x ∈ l := by
  induction l generalizing acc with
  | nil => left; simpa using h
  | cons d t ih =>
      rw [List.foldl_cons] at h
      rcases ih _ h with hx | hx
      · split_ifs at hx with hc
        · rcases Finset.mem_insert.mp hx with rfl | hx2
          · right; exact List.mem_cons_self x t
          · left; exact hx2
        · left; exact hx
      · right; exact List.mem_cons_of_mem _ hx

theorem expandFold_subset (m : Nat) (depsF : String → List String)
    (cands : List String) (acc : Finset String) :
    acc ⊆ cands.foldl (fun acc p => (depsF p).foldl
      (fun s d => if s.card < m then insert d s else s) acc) acc := by
  induction cands generalizing acc with
  | nil => exact subset_rfl
  | cons p t ih =>
      rw [List.foldl_cons]
      exact subset_trans (cappedFold_subset m (depsF p) acc) (ih _)

theorem expandFold_card (m : Nat) (depsF : String → List String)
    (cands : List String) (acc : Finset String) (h : acc.card ≤ m) :
    (cands.foldl (fun acc p => (depsF p).foldl
      (fun s d => if s.card < m then insert d s else s) acc) acc).card ≤ m := by
  induction cands generalizing acc with
  | nil => simpa using h
  | cons p t ih =>
      rw [List.foldl_cons]
      exact ih _ (cappedFold_card m (depsF p) acc h)

theorem expandFold_frozen (m : Nat) (depsF : String → List String)
    (cands : List String) (acc : Finset String) (h : ¬ acc.card < m) :
    cands.foldl (fun acc p => (depsF p).foldl
      (fun s d => if s.card < m then insert d s else s) acc) acc = acc := by
  induction cands with
  | nil => rfl
  | cons p t ih =>
      rw [List.foldl_cons, cappedFold_frozen m (depsF p) acc h]
      exact ih

theorem expandFold_mem (m : Nat) (depsF : String → List String)
    (cands : List String) (acc : Finset String) (x : String)
    (h : x ∈ cands.foldl (fun acc p => (depsF p).foldl
      (fun s d => if s.card < m then insert d s else s) acc) acc) :
    x ∈ acc ∨ ∃ p ∈ cands, x ∈ depsF p := by
  induction cands generalizing acc with
  | nil => left; simpa using h
  | cons p t ih =>
      rw [List.foldl_cons] at h
      rcases ih _ h with hx | ⟨q, hq, hd⟩
      · rcases cappedFold_mem m (depsF p) acc x hx with hx2 | hx2
        · left; exact hx2
        · right; exact ⟨p, List.mem_cons_self p t, hx2⟩
      · right; exact ⟨q, List.mem_cons_of_mem _ hq, hd⟩

theorem dependencies_subset_keys (pyMods jsImports : String → List String)
    (candidateOf : String → String → String) (idx : MetadataIndex) (path : String) :
    ∀ d ∈ _dependencies pyMods jsImports candidateOf idx path,
      d ∈ idx.by_path.map (fun pm => pm.1) := by
  intro d hd
  unfold _dependencies at hd
  rcases hm : (idx.by_path.find? (fun pm => pm.1 = path)).map (fun pm => pm.2) with _ | md
  · rw [hm] at hd; simp at hd
  · rw [hm] at hd
    rcases List.mem_append.mp hd with h1 | h2
    · obtain ⟨m, _, hmem⟩ := List.mem_flatMap.mp h1
      exact (List.mem_filter.mp hmem).1
    · obtain ⟨rel, _, hmem⟩ := List.mem_flatMap.mp h2
      by_cases hs : strStartsWith rel "." = true
      · rw [if_pos hs] at hmem
        obtain ⟨ext, _, hmem2⟩ := List.mem_flatMap.mp hmem
        exact (List.mem_filter.mp hmem2).1
      · rw [if_neg hs] at hmem
        simp at hmem

theorem candidates_subset_keys (idx : MetadataIndex) (query : String) (max_files : Nat) :
    ∀ p ∈ selectCandidates idx query max_files, p ∈ idx.by_path.map (fun pm => pm.1) := by
  intro p hp
  dsimp only [selectCandidates] at hp
  have hp2 := List.mem_of_mem_take hp
  obtain ⟨q, hq, hq2⟩ := List.mem_map.mp hp2
  have hq3 := List.mem_mergeSort.mp hq
  obtain ⟨pm, hpm, hpm2⟩ := List.mem_filterMap.mp hq3
  split_ifs at hpm2 with hpos
  cases hpm2
  rw [← hq2]
  exact List.mem_map.mpr ⟨pm, hpm, rfl⟩

/-- C9: for every query and cap, `select_files` returns at most `max_files`
paths; every returned path is an indexed file (a key of `by_path`);
dependency expansion never evicts a ranked candidate — every pre-expansion
candidate is in the returned set; and expansion stops once the cap is
reached: when the candidates already fill the cap the returned set is
exactly the candidate set. -/
theorem select_files_cap (pyMods jsImports : String → List String)
    (candidateOf : String → String → String) (idx : MetadataIndex)
    (query : String) (max_files : Nat) (_hmf : 1 ≤ max_files) :
    (select_files pyMods jsImports candidateOf idx query max_files).card ≤ max_files
    ∧ (∀ p ∈ select_files pyMods jsImports candidateOf idx query max_files,
        p ∈ idx.by_path.map (fun pm => pm.1))
    ∧ (∀ p ∈ selectCandidates idx query max_files,
        p ∈ select_files pyMods jsImports candidateOf idx query max_files)
    ∧ ((selectCandidates idx query max_files).toFinset.card = max_files →
        select_files pyMods jsImports candidateOf idx query max_files =
          (selectCandidates idx query max_files).toFinset) := by
  have hinit : (selectCandidates idx query max_files).toFinset.card ≤ max_files :=
    le_trans (List.toFinset_card_le _)
      (le_trans (le_of_eq rfl) (by
        dsimp only [selectCandidates]
        exact List.length_take_le _ _))
  refine ⟨?_, ?_, ?_, ?_⟩
  · exact expandFold_card max_files _ _ _ hinit
  · intro p hp
    rcases expandFold_mem max_files _ _ _ p hp with hx | ⟨q, _, hd⟩
    · exact candidates_subset_keys idx query max_files p (List.mem_toFinset.mp hx)
    · exact dependencies_subset_keys pyMods jsImports candidateOf idx q p hd
  · intro p hp
    exact expandFold_subset max_files _ _ _ (List.mem_toFinset.mpr hp)
  · intro hfull
    exact expandFold_frozen max_files _ _ _ (by omega)

/-- Witness for `select_files_cap`: a one-file index queried with cap 1. -/
theorem select_files_cap_witness :
    (1 ≤ 1)
    ∧ ((select_files (fun _ => []) (fun _ => []) (fun _ s => s)
          (MetadataIndex.mk [("src/main.py", FileMetadata.mk "src/main.py" 10 none "python" "def hello():" ["hello"])])
          "where is the main function" 1).card ≤ 1
      ∧ (∀ p ∈ select_files (fun _ => []) (fun _ => []) (fun _ s => s)
          (MetadataIndex.mk [("src/main.py", FileMetadata.mk "src/main.py" 10 none "python" "def hello():" ["hello"])])
          "where is the main function" 1,
          p ∈ (MetadataIndex.mk [("src/main.py", FileMetadata.mk "src/main.py" 10 none "python" "def hello():" ["hello"])]).by_path.map (fun pm => pm.1))
      ∧ (∀ p ∈ selectCandidates
          (MetadataIndex.mk [("src/main.py", FileMetadata.mk "src/main.py" 10 none "python" "def hello():" ["hello"])])
          "where is the main function" 1,
          p ∈ select_files (fun _ => []) (fun _ => []) (fun _ s => s)
            (MetadataIndex.mk [("src/main.py", FileMetadata.mk "src/main.py" 10 none "python" "def hello():" ["hello"])])
            "where is the main function" 1)
      ∧ ((selectCandidates
            (MetadataIndex.mk [("src/main.py", FileMetadata.mk "src/main.py" 10 none "python" "def hello():" ["hello"])])
            "where is the main function" 1).toFinset.card = 1 →
          select_files (fun _ => []) (fun _ => []) (fun _ s => s)
            (MetadataIndex.mk [("src/main.py", FileMetadata.mk "src/main.py" 10 none "python" "def hello():" ["hello"])])
            "where is the main function" 1 =
          (selectCandidates
            (MetadataIndex.mk [("src/main.py", FileMetadata.mk "src/main.py" 10 none "python" "def hello():" ["hello"])])
            "where is the main function" 1).toFinset)) :=
  ⟨le_rfl,
    select_files_cap (fun _ => []) (fun _ => []) (fun _ s => s)
      (MetadataIndex.mk [("src/main.py", FileMetadata.mk "src/main.py" 10 none "python" "def hello():" ["hello"])])
      "where is the main function" 1 le_rfl⟩
